import Mathlib

/-!
Shallow embedding of the core of `oi-pkg-checker` (crate
`oi-pkg-checker-core`): the `Package`/`Component`/`Components` data model
from `src/packages/package.rs` and `src/packages/components.rs`, together
with the mutation API and the problem-check rule engine.

Modelling conventions:
* `Version` (external `fmri` crate, totally ordered) is modelled as `Nat`.
* `FMRI` (external) is a record of package name, optional version and
  optional publisher, compared structurally.
* `Rc<RefCell<...>>` shared cells are modelled by the registry owning the
  canonical list of records; weak/strong cross references become the name
  of the referenced record, resolved through the registry at use time.
* Rust methods taking `&mut self` become functions returning the updated
  value; fallible operations return `Except String`; a Rust `panic!` or
  `unwrap` failure is modelled as `Except.error`/`Option.none`.
* `Problems` (module not present in `src/`) is modelled from the spec:
  an append-only diagnostic sink, i.e. a `List Problem` with `add_problem`
  appending at the end.
-/

namespace OIPkg

/-- External `FMRI` identity: package name, optional version, optional
publisher (`fmri` crate, modelled at its interface). -/
structure FMRI where
  name : String
  version : Option Nat
  publisher : Option String
deriving DecidableEq, Repr

/-- The placeholder `FMRI::parse_raw("none").unwrap()` used by the code. -/
def noneFMRI : FMRI := { name := "none", version := none, publisher := none }

/-- `DependTypes`: runtime dependency shapes attached to one package
version (the closed set handled by `distribute_reverse_runtime_dependencies`). -/
inductive DependTypes where
  | Require (f : FMRI)
  | Optional (f : FMRI)
  | Incorporate (f : FMRI)
  | RequireAny (l : List FMRI)
  | Conditional (f p : FMRI)
  | Group (f : FMRI)
deriving DecidableEq, Repr

/-- `RevDependType` from `rev_depend_type.rs`: reverse runtime dependency
edges, each carrying the source package FMRI. -/
inductive RevDependType where
  | Require (f : FMRI)
  | Optional (f : FMRI)
  | Incorporate (f : FMRI)
  | RequireAny (f : FMRI)
  | ConditionalFmri (f : FMRI)
  | ConditionalPredicate (f : FMRI)
  | Group (f : FMRI)
deriving DecidableEq, Repr

/-- `DependencyTypes` from `dependency_type.rs`: dependency classes. -/
inductive DependencyTypes where
  | Runtime
  | Build
  | Test
  | SystemBuild
  | SystemTest
deriving DecidableEq, Repr

/-- The diagnostic kinds of `problems.rs` used by the embedded code. -/
inductive Problem where
  | SamePackageHasTwoPublishers (fmri : FMRI) (pubA pubB : String)
      (culprit : Option String)
  | NonExistingPackageInPkg5 (fmri : FMRI) (component : String)
  | NonExistingRequired (d : DependTypes) (dt : DependencyTypes)
      (requiredBy : FMRI) (component : String)
  | NonExistingRequiredByRenamed (d : DependTypes) (dt : DependencyTypes)
      (requiredBy : FMRI)
  | ObsoletedPackageInComponent (fmri : FMRI) (component : String)
  | RenamedPackageInComponent (fmri : FMRI) (component : String)
  | MissingComponentForPackage (fmri : FMRI)
  | PackageInMultipleComponents (fmri : FMRI) (components : List String)
  | UselessComponent (component : String)
  | RenamedNeedsRenamed (a b : FMRI)
  | ObsoletedRequired (d : DependTypes) (dt : DependencyTypes)
      (requiredBy : FMRI) (component : String)
  | ObsoletedRequiredByRenamed (d : DependTypes) (dt : DependencyTypes)
      (requiredBy : FMRI)
  | PartlyObsoletedRequired (d : DependTypes) (dt : DependencyTypes)
      (requiredBy : FMRI) (component : String)
  | PartlyObsoletedRequiredByRenamed (d : DependTypes) (dt : DependencyTypes)
      (requiredBy : FMRI)
deriving DecidableEq, Repr

/-- `PackageVersion` from `package.rs`: one version of a package with its
runtime dependencies and the two lifecycle flags. -/
structure PackageVersion where
  version : Nat
  runtime : List DependTypes
  obsolete : Bool
  renamed : Bool
deriving DecidableEq, Repr

/-- `PackageVersion::new`. -/
def PackageVersion.new (version : Nat) : PackageVersion :=
  { version := version, runtime := [], obsolete := false, renamed := false }

/-- `Package` from `package.rs`. The `component` link and the four
`*_dependents` sets hold component names (shared references in Rust,
resolved through the registry here). -/
structure Package where
  fmri : FMRI
  versions : List PackageVersion
  component : Option String
  obsolete : Bool
  renamed : Bool
  runtime_dependents : List RevDependType
  build_dependents : List String
  test_dependents : List String
  sys_build_dependents : List String
  sys_test_dependents : List String
deriving DecidableEq, Repr

/-- `Package::new`. -/
def Package.new (fmri : FMRI) : Package :=
  { fmri := fmri, versions := [], component := none, obsolete := false,
    renamed := false, runtime_dependents := [], build_dependents := [],
    test_dependents := [], sys_build_dependents := [],
    sys_test_dependents := [] }

/-- `Component` from `components.rs`. Member and dependency sets hold
package names (weak references in Rust). -/
structure Component where
  name : String
  packages : List String
  build : List String
  test : List String
  sys_build : List String
  sys_test : List String
deriving DecidableEq, Repr

/-- `Component::new`. -/
def Component.new (component_name : String) : Component :=
  { name := component_name, packages := [], build := [], test := [],
    sys_build := [], sys_test := [] }

/-- `Components` registry from `components.rs`: the canonical lists of
packages and components (the Rust `Vec`s; the hash maps are modelled by
name lookup) and the append-only `Problems` sink. -/
structure Components where
  components : List Component
  packages : List Package
  problems : List Problem
deriving DecidableEq, Repr

/-- `Problems::add_problem`, modelled from the spec: append-only sink. -/
def addProblem (cs : Components) (p : Problem) : Components :=
  { cs with problems := cs.problems ++ [p] }

/-- `Package::add_package_version` (`package.rs` lines 52-75).
Returns the updated package together with the Rust return value; on
`Err` the package is returned unchanged (the Rust method returns before
mutating). -/
def Package.add_package_version (p : Package) (pv : PackageVersion) :
    Package × Except String Unit :=
  if pv ∈ p.versions then
    (p, .ok ())
  else if p.versions.any fun v => v.version = pv.version then
    (p, .ok ())
  else if pv.obsolete && pv.renamed then
    (p, .error "package cannot be obsolete and renamed at the same time")
  else
    ({ p with obsolete := pv.obsolete, renamed := pv.renamed,
              versions := p.versions ++ [pv] }, .ok ())

/-- `Package::add_dependent` (`package.rs` lines 77-90). -/
def Package.add_dependent (p : Package) (dependent : String)
    (dt : DependencyTypes) : Package × Except String Unit :=
  match dt with
  | .Runtime => (p, .error "you can not add runtime dependent")
  | .Build => ({ p with build_dependents := p.build_dependents ++ [dependent] }, .ok ())
  | .Test => ({ p with test_dependents := p.test_dependents ++ [dependent] }, .ok ())
  | .SystemBuild =>
      ({ p with sys_build_dependents := p.sys_build_dependents ++ [dependent] }, .ok ())
  | .SystemTest =>
      ({ p with sys_test_dependents := p.sys_test_dependents ++ [dependent] }, .ok ())

/-- `Package::set_component` (`package.rs` lines 92-105): sets the single
component link, or reports `PackageInMultipleComponents` without
overwriting. -/
def Package.set_component (p : Package) (component : String) :
    Package × Option Problem :=
  match p.component with
  | some c =>
      (p, some (.PackageInMultipleComponents p.fmri [c, component]))
  | none => ({ p with component := some component }, none)

/-- Hash lookup of a package cell by package name; names in the registry
are unique (a package cell is inserted only when lookup fails). -/
def getPackageByName (cs : Components) (name : String) : Option Package :=
  cs.packages.find? fun p => p.fmri.name = name

/-- `Components::get_package_by_fmri` (`components.rs` lines 172-180):
hash lookup by the name part of the FMRI. -/
def getPackageByFmri (cs : Components) (fmri : FMRI) : Option Package :=
  getPackageByName cs fmri.name

/-- `Components::get_component_by_name` (`components.rs` lines 165-170):
hash lookup; on duplicate insertion the hash map keeps the last inserted
cell, hence the reversed search. -/
def getComponentByName (cs : Components) (name : String) : Option Component :=
  cs.components.reverse.find? fun c => c.name = name

/-- Updates the first list element satisfying the predicate (mutation of
the shared cell a hash lookup resolved to). -/
def updateFirst {α : Type} (l : List α) (q : α → Bool) (f : α → α) : List α :=
  match l with
  | [] => []
  | a :: rest => if q a then f a :: rest else a :: updateFirst rest q f

/-- Mutation through the package cell found by `getPackageByFmri`. -/
def updatePackage (cs : Components) (name : String) (f : Package → Package) :
    Components :=
  { cs with packages := updateFirst cs.packages (fun p => p.fmri.name = name) f }

/-- Mutation through the component cell found by `getComponentByName`
(last occurrence, matching the hash-map overwrite semantics). -/
def updateComponent (cs : Components) (name : String)
    (f : Component → Component) : Components :=
  { cs with components :=
      (updateFirst cs.components.reverse (fun c => c.name = name) f).reverse }

/-- Ascending stable sort by version (`sort_by(|a, b| a.version.cmp(&b.version))`;
Rust `sort_by` is a stable sort, modelled by stable insertion sort). -/
def sortAsc (vs : List PackageVersion) : List PackageVersion :=
  vs.insertionSort fun a b => a.version ≤ b.version

/-- Descending stable sort by version (`sort_by(|a, b| b.version.cmp(&a.version))`). -/
def sortDesc (vs : List PackageVersion) : List PackageVersion :=
  vs.insertionSort fun a b => b.version ≤ a.version

/-- `Components::add_package` (`components.rs` lines 44-133): insert a new
package cell, or merge with the existing one of the same name following
the obsolete/obsolete table over the first (lowest) stored versions.
`none` models the Rust panics (`first().unwrap()` on an empty version
list, `get_publisher().unwrap()` on a publisher-free FMRI). -/
def add_package (cs : Components) (package : Package) : Option Components :=
  match getPackageByFmri cs package.fmri with
  | none => some { cs with packages := cs.packages ++ [package] }
  | some existing =>
    match (sortAsc existing.versions).head?, (sortAsc package.versions).head? with
    | some o, some n =>
      match o.obsolete, n.obsolete with
      | true, false =>
        match compare o.version n.version with
        | .eq | .lt =>
            some (updatePackage cs package.fmri.name fun _ =>
              { package with versions := sortAsc package.versions })
        | .gt =>
          match existing.fmri.publisher, package.fmri.publisher with
          | some pa, some pb =>
              some (addProblem cs
                (.SamePackageHasTwoPublishers package.fmri pa pb none))
          | _, _ => none
      | false, true =>
        match compare o.version n.version with
        | .eq | .lt =>
          match existing.fmri.publisher, package.fmri.publisher with
          | some pa, some pb =>
              some (addProblem cs
                (.SamePackageHasTwoPublishers package.fmri pa pb none))
          | _, _ => none
        | .gt => some cs
      | false, false =>
        match existing.fmri.publisher, package.fmri.publisher with
        | some pa, some pb =>
            some (addProblem cs
              (.SamePackageHasTwoPublishers package.fmri pa pb
                (some (match compare o.version n.version with
                       | .eq => pa
                       | .gt | .lt => pb))))
        | _, _ => none
      | true, true => some cs
    | _, _ => none

/-- `Components::new_component` (`components.rs` lines 135-163): create
the component, resolve each member FMRI, link both directions or report
`NonExistingPackageInPkg5`, then register the component. -/
def new_component (cs : Components) (component_name : String)
    (packages : List FMRI) : Components :=
  let step := fun (st : Components × Component) (fmri : FMRI) =>
    let (cs, comp) := st
    match getPackageByFmri cs fmri with
    | some rc =>
      let comp := { comp with packages := comp.packages ++ [rc.fmri.name] }
      let (p2, res) := rc.set_component component_name
      let cs := updatePackage cs rc.fmri.name fun _ => p2
      match res with
      | some pr => (addProblem cs pr, comp)
      | none => (cs, comp)
    | none =>
      (addProblem cs (.NonExistingPackageInPkg5 fmri component_name), comp)
  let (cs, comp) := packages.foldl step (cs, Component.new component_name)
  { cs with components := cs.components ++ [comp] }

/-- `Components::add_repo_dependencies` (`components.rs` lines 191-233):
attach component-level dependency edges of a non-runtime class; missing
targets report `NonExistingRequired` and are skipped; the `Runtime` class
is rejected with a typed error. Returns the registry state at return time
together with the Rust return value. -/
def add_repo_dependencies (cs : Components) (component_name : String)
    (dependencies : List FMRI) (dt : DependencyTypes) :
    Components × Except String Unit :=
  match dependencies with
  | [] => (cs, .ok ())
  | fmri :: rest =>
    match getPackageByFmri cs fmri with
    | none =>
      let cs := addProblem cs
        (.NonExistingRequired (.Require fmri) dt noneFMRI component_name)
      add_repo_dependencies cs component_name rest dt
    | some rc =>
      match getComponentByName cs component_name with
      | none => (cs, .error "failed to get component")
      | some _ =>
        match dt with
        | .Runtime =>
            (cs, .error "can not insert runtime dependencies into component")
        | .Build =>
          let cs := updateComponent cs component_name fun c =>
            { c with build := c.build ++ [rc.fmri.name] }
          let cs := updatePackage cs rc.fmri.name fun p =>
            (p.add_dependent component_name .Build).1
          add_repo_dependencies cs component_name rest dt
        | .Test =>
          let cs := updateComponent cs component_name fun c =>
            { c with test := c.test ++ [rc.fmri.name] }
          let cs := updatePackage cs rc.fmri.name fun p =>
            (p.add_dependent component_name .Test).1
          add_repo_dependencies cs component_name rest dt
        | .SystemBuild =>
          let cs := updateComponent cs component_name fun c =>
            { c with sys_build := c.sys_build ++ [rc.fmri.name] }
          let cs := updatePackage cs rc.fmri.name fun p =>
            (p.add_dependent component_name .SystemBuild).1
          add_repo_dependencies cs component_name rest dt
        | .SystemTest =>
          let cs := updateComponent cs component_name fun c =>
            { c with sys_test := c.sys_test ++ [rc.fmri.name] }
          let cs := updatePackage cs rc.fmri.name fun p =>
            (p.add_dependent component_name .SystemTest).1
          add_repo_dependencies cs component_name rest dt

/-- `Components::remove_old_versions` (`components.rs` lines 361-378):
per package, sort versions descending, keep the first version that is
neither obsolete nor renamed (falling back to the overall first, i.e.
highest), as the single stored version. `none` models the
`first().unwrap()` panic on a package with no versions.
`pruneOne` is the body of the per-package loop. -/
def pruneOne (p : Package) : Option Package :=
  match (sortDesc p.versions).head? with
  | none => none
  | some hd =>
    let new_ver := ((sortDesc p.versions).find? fun v =>
      !v.obsolete && !v.renamed).getD hd
    some { p with versions := [new_ver] }

/-- The per-package loop of `remove_old_versions`. -/
def remove_old_versions (cs : Components) : Option Components :=
  (cs.packages.mapM pruneOne).map fun ps => { cs with packages := ps }

/-- The `(target, reverse edge)` pairs one runtime dependency entry of the
source package `src` emits (`distribute_reverse_runtime_dependencies`,
`components.rs` lines 290-305). -/
def revEdges (src : FMRI) : DependTypes → List (FMRI × RevDependType)
  | .Require f => [(f, .Require src)]
  | .Optional f => [(f, .Optional src)]
  | .Incorporate f => [(f, .Incorporate src)]
  | .RequireAny l => l.map fun f => (f, .Require src)
  | .Conditional f p => [(f, .ConditionalFmri src), (p, .ConditionalPredicate src)]
  | .Group f => [(f, .Group src)]

/-- All `(target, reverse edge)` pairs emitted by the generation loop of
`distribute_reverse_runtime_dependencies`, in emission order. -/
def genEdges (cs : Components) : List (FMRI × RevDependType) :=
  cs.packages.flatMap fun p =>
    p.versions.flatMap fun v =>
      v.runtime.flatMap fun d => revEdges p.fmri d

/-- One step of the `rev_run_deps` accumulation: `HashMap<FMRI,
HashSet<RevDependType>>` modelled as an association list in key
first-insertion order, each entry a duplicate-free edge list in
first-insertion order. -/
def addEdge (m : List (FMRI × List RevDependType)) (f : FMRI)
    (e : RevDependType) : List (FMRI × List RevDependType) :=
  match m with
  | [] => [(f, [e])]
  | (g, es) :: rest =>
    if g = f then (g, if e ∈ es then es else es ++ [e]) :: rest
    else (g, es) :: addEdge rest f e

/-- The grouped reverse-edge map built by the generation loop. -/
def groupEdges (l : List (FMRI × RevDependType)) :
    List (FMRI × List RevDependType) :=
  l.foldl (fun m fe => addEdge m fe.1 fe.2) []

/-- The diagnostic built for one reverse edge whose target key `target`
resolved to no package (`components.rs` lines 319-354): the edge is
converted back to a `DependTypes`, the source package is resolved and its
renamed flag selects the variant. `none` models the
`panic!("non existing as required by non existing?")` on an unresolvable
source. -/
def missingDiagOf (cs : Components) (target : FMRI) (e : RevDependType) :
    Option Problem :=
  let fd : FMRI × DependTypes :=
    match e with
    | .Require f => (f, .Require target)
    | .Optional f => (f, .Optional target)
    | .Incorporate f => (f, .Incorporate target)
    | .RequireAny f => (f, .RequireAny [target])
    | .ConditionalFmri f => (f, .Conditional target noneFMRI)
    | .ConditionalPredicate f => (f, .Conditional noneFMRI target)
    | .Group f => (f, .Group target)
  match getPackageByFmri cs fd.1 with
  | some p =>
      some (if p.renamed then .NonExistingRequiredByRenamed fd.2 .Runtime fd.1
            else .NonExistingRequired fd.2 .Runtime fd.1 "")
  | none => none

/-- The diagnostic loop for an unresolvable target key. -/
def distributeDiags (cs : Components) (target : FMRI) :
    List RevDependType → Option Components
  | [] => some cs
  | e :: rest =>
    match missingDiagOf cs target e with
    | none => none
    | some pr => distributeDiags (addProblem cs pr) target rest

/-- One iteration of the distribution loop over the grouped map: append
the accumulated edges to the resolvable target package, or report one
missing-dependency diagnostic per accumulated edge. -/
def distributeStep (acc : Components) (entry : FMRI × List RevDependType) :
    Option Components :=
  match getPackageByFmri acc entry.1 with
  | some _ =>
    some (updatePackage acc entry.1.name fun q =>
      { q with runtime_dependents := q.runtime_dependents ++ entry.2 })
  | none => distributeDiags acc entry.1 entry.2

/-- `Components::distribute_reverse_runtime_dependencies` (`components.rs`
lines 276-359): group all emitted reverse edges by target FMRI, then per
key either append the accumulated edges to the resolvable target package
or report one missing-dependency diagnostic per accumulated edge. -/
def distribute_reverse_runtime_dependencies (cs : Components) :
    Option Components :=
  (groupEdges (genEdges cs)).foldlM distributeStep cs

/-- Pass 1 of `check_problems` (`components.rs` lines 381-399):
`ObsoletedPackageInComponent` / `RenamedPackageInComponent` for every
(component, member) pair. Errors model `upgrade().unwrap()` panics. -/
def passLifecycleInComponent (cs : Components) : Except String Components :=
  cs.components.foldlM
    (fun acc comp =>
      comp.packages.foldlM
        (fun acc2 nm =>
          match getPackageByName acc2 nm with
          | none => .error "package upgrade failed"
          | some pkg =>
            if pkg.obsolete then
              .ok (addProblem acc2 (.ObsoletedPackageInComponent pkg.fmri comp.name))
            else if pkg.renamed then
              .ok (addProblem acc2 (.RenamedPackageInComponent pkg.fmri comp.name))
            else .ok acc2)
        acc)
    cs

/-- Pass 2 of `check_problems` (`components.rs` lines 401-412):
`MissingComponentForPackage` for unowned live packages. -/
def passMissingComponent (cs : Components) : Components :=
  cs.packages.foldl
    (fun acc pkg =>
      if pkg.component.isNone && !pkg.renamed && !pkg.obsolete then
        addProblem acc (.MissingComponentForPackage pkg.fmri)
      else acc)
    cs

/-- The first-branch member test of the useless-component pass
(`components.rs` lines 417-441): not obsolete/renamed, only `Incorporate`
runtime dependents, and empty dependent sets — mirroring the source, which
tests `sys_build_dependents.is_empty()` twice and never tests
`sys_test_dependents` in this branch. -/
def memberBranchA (cs : Components) (nm : String) : Option Bool :=
  match getPackageByName cs nm with
  | none => none
  | some package =>
    if package.obsolete || package.renamed then some false
    else if package.runtime_dependents.any fun d =>
        match d with
        | .Incorporate _ => false
        | _ => true then some false
    else if package.build_dependents.isEmpty
        && package.test_dependents.isEmpty
        && package.sys_build_dependents.isEmpty
        && package.sys_build_dependents.isEmpty then some true
    else some false

/-- Short-circuiting `all` over the members for the first branch. -/
def allMembersA (cs : Components) : List String → Option Bool
  | [] => some true
  | nm :: rest =>
    match memberBranchA cs nm with
    | none => none
    | some false => some false
    | some true => allMembersA cs rest

/-- The second-branch member test of the useless-component pass
(`components.rs` lines 456-486): every non-`Incorporate` runtime
dependent lies inside the component and every class dependent is this
component itself. -/
def memberBranchB (cs : Components) (compName : String)
    (packages_fmris : List FMRI) (nm : String) : Option Bool :=
  match getPackageByName cs nm with
  | none => none
  | some package =>
    if package.runtime_dependents.any fun d =>
        match d with
        | .Require f | .Optional f | .RequireAny f | .ConditionalFmri f
        | .ConditionalPredicate f | .Group f => !packages_fmris.contains f
        | .Incorporate _ => false then some false
    else
      let check := fun (deps : List String) => !deps.all fun c => compName = c
      if check package.build_dependents || check package.sys_build_dependents
          || check package.test_dependents || check package.sys_test_dependents
      then some false
      else some true

/-- Short-circuiting member loop for the second branch (`continue 'main`). -/
def allMembersB (cs : Components) (compName : String)
    (packages_fmris : List FMRI) : List String → Option Bool
  | [] => some true
  | nm :: rest =>
    match memberBranchB cs compName packages_fmris nm with
    | none => none
    | some false => some false
    | some true => allMembersB cs compName packages_fmris rest

/-- The useless-component pass body for one component
(`components.rs` lines 415-490). -/
def uselessForComponent (cs : Components) (comp : Component) :
    Except String Components :=
  match allMembersA cs comp.packages with
  | none => .error "package upgrade failed"
  | some true => .ok (addProblem cs (.UselessComponent comp.name))
  | some false =>
    match comp.packages.mapM fun nm => (getPackageByName cs nm).map (·.fmri) with
    | none => .error "package upgrade failed"
    | some packages_fmris =>
      match allMembersB cs comp.name packages_fmris comp.packages with
      | none => .error "package upgrade failed"
      | some true => .ok (addProblem cs (.UselessComponent comp.name))
      | some false => .ok cs

/-- Pass 3 of `check_problems`: `UselessComponent`. -/
def passUselessComponent (cs : Components) : Except String Components :=
  cs.components.foldlM (fun acc comp => uselessForComponent acc comp) cs

/-- The runtime-dependent loop of the renamed-needs-renamed pass
(`components.rs` lines 500-520); every edge kind carries its source. -/
def renamedRuntimeLoop (cs : Components) (pkgFmri : FMRI) :
    List RevDependType → Except String Components
  | [] => .ok cs
  | d :: rest =>
    let f := match d with
      | .Require f | .Optional f | .Incorporate f | .RequireAny f
      | .ConditionalFmri f | .ConditionalPredicate f | .Group f => f
    match getPackageByFmri cs f with
    | none => .error "failed to get package"
    | some pb =>
      if !pb.renamed then renamedRuntimeLoop cs pkgFmri rest
      else
        renamedRuntimeLoop
          (addProblem cs (.RenamedNeedsRenamed pb.fmri pkgFmri)) pkgFmri rest

/-- The component-dependency loop of the renamed-needs-renamed pass
(`components.rs` lines 527-538). -/
def renamedCompDeps (cs : Components) (pkgFmri : FMRI) :
    List String → Except String Components
  | [] => .ok cs
  | nm :: rest =>
    match getPackageByName cs nm with
    | none => .error "package upgrade failed"
    | some pb =>
      if pb.renamed then
        renamedCompDeps
          (addProblem cs (.RenamedNeedsRenamed pkgFmri pb.fmri)) pkgFmri rest
      else renamedCompDeps cs pkgFmri rest

/-- Pass 4 of `check_problems` (`components.rs` lines 492-546):
`RenamedNeedsRenamed`, per renamed package. -/
def passRenamedNeedsRenamed (cs : Components) : Except String Components :=
  cs.packages.foldlM
    (fun acc pkg =>
      if !pkg.renamed then .ok acc
      else do
        let acc ← renamedRuntimeLoop acc pkg.fmri pkg.runtime_dependents
        match pkg.component with
        | none => .ok acc
        | some cname =>
          match getComponentByName acc cname with
          | none => .error "component reference failed"
          | some comp => do
            let acc ← renamedCompDeps acc pkg.fmri comp.build
            let acc ← renamedCompDeps acc pkg.fmri comp.test
            let acc ← renamedCompDeps acc pkg.fmri comp.sys_build
            renamedCompDeps acc pkg.fmri comp.sys_test)
    cs

/-- The carried source FMRI of a non-`Incorporate` reverse edge
(`components.rs` lines 600-608). -/
def carriedNonIncorporate : RevDependType → Option FMRI
  | .Incorporate _ => none
  | .Require f | .Optional f | .RequireAny f | .ConditionalFmri f
  | .ConditionalPredicate f | .Group f => some f

/-- The runtime-dependent loop of `check_obsoleted_required_packages`
(`components.rs` lines 599-631), returning the problems it pushes.
Errors model the `get_package_by_fmri(..).unwrap()` panic. -/
def obsRuntimeLoop (cs : Components) (pkg : Package)
    (pt : DependTypes → DependencyTypes → FMRI → String → Problem)
    (ptr : DependTypes → DependencyTypes → FMRI → Problem) :
    List RevDependType → Except String (List Problem)
  | [] => .ok []
  | d :: rest =>
    match carriedNonIncorporate d with
    | none => obsRuntimeLoop cs pkg pt ptr rest
    | some f =>
      match getPackageByFmri cs f with
      | none => .error "failed to get required-by package"
      | some p => do
        let tail ← obsRuntimeLoop cs pkg pt ptr rest
        if p.obsolete then .ok tail
        else if p.renamed then .ok (ptr (.Require pkg.fmri) .Runtime f :: tail)
        else .ok (pt (.Require pkg.fmri) .Runtime f "" :: tail)

/-- `check_obsoleted_required_packages` (`components.rs` lines 577-632):
one diagnostic per class-dependent component (build, system-build, test,
system-test, in source order), then the runtime-dependent loop. -/
def check_obsoleted_required_packages (cs : Components) (pkg : Package)
    (pt : DependTypes → DependencyTypes → FMRI → String → Problem)
    (ptr : DependTypes → DependencyTypes → FMRI → Problem) :
    Except String (List Problem) := do
  let compPart :=
    (pkg.build_dependents.map fun c => pt (.Require pkg.fmri) .Build noneFMRI c)
    ++ (pkg.sys_build_dependents.map fun c =>
        pt (.Require pkg.fmri) .SystemBuild noneFMRI c)
    ++ (pkg.test_dependents.map fun c => pt (.Require pkg.fmri) .Test noneFMRI c)
    ++ (pkg.sys_test_dependents.map fun c =>
        pt (.Require pkg.fmri) .SystemTest noneFMRI c)
  let rt ← obsRuntimeLoop cs pkg pt ptr pkg.runtime_dependents
  .ok (compPart ++ rt)

/-- Pass 5 of `check_problems` (`components.rs` lines 548-571): for every
package with the aggregate obsolete flag, choose the diagnostic family by
the first stored version's own obsolete flag. -/
def passObsoletedRequired (cs : Components) : Except String Components :=
  cs.packages.foldlM
    (fun acc pkg =>
      if !pkg.obsolete then .ok acc
      else
        match pkg.versions.head? with
        | none => .error "no versions"
        | some v0 => do
          let ps ←
            if v0.obsolete then
              check_obsoleted_required_packages acc pkg
                .ObsoletedRequired .ObsoletedRequiredByRenamed
            else
              check_obsoleted_required_packages acc pkg
                .PartlyObsoletedRequired .PartlyObsoletedRequiredByRenamed
          .ok { acc with problems := acc.problems ++ ps })
    cs

/-- `Components::check_problems` (`components.rs` lines 380-574): the five
diagnostic passes in source order. -/
def check_problems (cs : Components) : Except String Components := do
  let cs ← passLifecycleInComponent cs
  let cs := passMissingComponent cs
  let cs ← passUselessComponent cs
  let cs ← passRenamedNeedsRenamed cs
  passObsoletedRequired cs

/-! ## Concrete fixtures used by witnesses and counterexamples -/

/-- A version-free, publisher-free FMRI named A. -/
def fA : FMRI := ⟨"A", none, none⟩

/-- A version-free, publisher-free FMRI named B. -/
def fB : FMRI := ⟨"B", none, none⟩

/-- An obsolete version 1. -/
def pvObs1 : PackageVersion :=
  { version := 1, runtime := [], obsolete := true, renamed := false }

/-- A version 1 that is both obsolete and renamed. -/
def pvBoth1 : PackageVersion :=
  { version := 1, runtime := [], obsolete := true, renamed := true }

/-! ## Claims about `Package::add_package_version` and `set_component` -/

/-- Claim C8: a `PackageVersion` with both the obsolete and the renamed
flag set, whose version number is not already stored, makes
`add_package_version` return an error with the package unchanged, while a
version with at most one of the two flags set is accepted (`Ok`). -/
theorem c8_both_flags_rejected (p : Package) (pv : PackageVersion) :
    (pv.obsolete = true → pv.renamed = true →
      (∀ v ∈ p.versions, v.version ≠ pv.version) →
      (p.add_package_version pv).1 = p ∧
        (p.add_package_version pv).2 =
          Except.error "package cannot be obsolete and renamed at the same time")
    ∧ (¬(pv.obsolete = true ∧ pv.renamed = true) →
      (p.add_package_version pv).2 = Except.ok ()) := by
  constructor
  · intro ho hr hfresh
    unfold Package.add_package_version
    split_ifs with h1 h2 h3
    · exact absurd rfl (hfresh pv h1)
    · obtain ⟨v, hv, hd⟩ := List.any_eq_true.mp h2
      exact absurd (of_decide_eq_true hd) (hfresh v hv)
    · exact ⟨rfl, rfl⟩
    · rw [ho, hr] at h3
      exact absurd rfl h3
  · intro hno
    unfold Package.add_package_version
    split_ifs with h1 h2 h3
    · rfl
    · rfl
    · exact absurd ⟨(Bool.and_eq_true _ _).mp h3 |>.1,
        (Bool.and_eq_true _ _).mp h3 |>.2⟩ hno
    · rfl

/-- Witness for C8 at concrete inputs: the both-flags version is rejected
leaving the empty package unchanged, and a flag-free version is accepted. -/
theorem c8_both_flags_rejected_witness :
    ((Package.new fA).add_package_version pvBoth1).1 = Package.new fA ∧
    ((Package.new fA).add_package_version pvBoth1).2 =
      Except.error "package cannot be obsolete and renamed at the same time" ∧
    ((Package.new fA).add_package_version (PackageVersion.new 1)).2 =
      Except.ok () := by
  have h1 := (c8_both_flags_rejected (Package.new fA) pvBoth1).1 rfl rfl
    (by simp [Package.new])
  have h2 := (c8_both_flags_rejected (Package.new fA) (PackageVersion.new 1)).2
    (by simp [PackageVersion.new])
  exact ⟨h1.1, h1.2, h2⟩

/-- Claim C10: adding a `PackageVersion` whose version number equals one
already stored returns `Ok` and leaves the package entirely unchanged
(flags, stored dependencies, everything), even when the incoming value is
both obsolete and renamed. -/
theorem c10_duplicate_version_noop (p : Package) (pv : PackageVersion)
    (h : ∃ v ∈ p.versions, v.version = pv.version) :
    p.add_package_version pv = (p, Except.ok ()) := by
  obtain ⟨v, hv, he⟩ := h
  unfold Package.add_package_version
  split_ifs with h1 h2
  · rfl
  · rfl
  all_goals exact absurd (List.any_eq_true.mpr ⟨v, hv, decide_eq_true he⟩) h2

/-- Witness for C10: re-adding version number 1 (with different flags) to
a package that already stores a plain version 1 is a no-op. -/
theorem c10_duplicate_version_noop_witness :
    Package.add_package_version
        { Package.new fA with versions := [PackageVersion.new 1] } pvBoth1
      = ({ Package.new fA with versions := [PackageVersion.new 1] }, Except.ok ()) :=
  c10_duplicate_version_noop _ pvBoth1
    ⟨PackageVersion.new 1, by simp, rfl⟩

/-- Claim C4 counterexample: the aggregate obsolete flag does not mirror
"at least one stored version is obsolete": adding a non-obsolete version 2
to a package that stores an obsolete version 1 (aggregate flag true)
resets the aggregate flag to false although the obsolete version is still
stored. -/
theorem c4_counterexample :
    (Package.add_package_version
        { Package.new fA with versions := [pvObs1], obsolete := true }
        (PackageVersion.new 2)).1.obsolete = false
    ∧ pvObs1 ∈ (Package.add_package_version
        { Package.new fA with versions := [pvObs1], obsolete := true }
        (PackageVersion.new 2)).1.versions
    ∧ pvObs1.obsolete = true := by decide

/-- Claim C4 (amended): when `add_package_version` stores a new version
(fresh version number, not both-flagged), the aggregate flags are
overwritten with the incoming version's flags — they mirror the most
recently added version, not "at least one stored version". -/
theorem c4_flags_mirror_last_added (p : Package) (pv : PackageVersion)
    (hfresh : ∀ v ∈ p.versions, v.version ≠ pv.version)
    (hok : ¬(pv.obsolete = true ∧ pv.renamed = true)) :
    (p.add_package_version pv).1 =
      { p with obsolete := pv.obsolete, renamed := pv.renamed,
               versions := p.versions ++ [pv] } := by
  unfold Package.add_package_version
  split_ifs with h1 h2 h3
  · exact absurd rfl (hfresh pv h1)
  · obtain ⟨v, hv, hd⟩ := List.any_eq_true.mp h2
    exact absurd (of_decide_eq_true hd) (hfresh v hv)
  · exact absurd ⟨(Bool.and_eq_true _ _).mp h3 |>.1,
      (Bool.and_eq_true _ _).mp h3 |>.2⟩ hok
  · rfl

/-- Witness for the amended C4 at the counterexample input: the flags
after the call equal the incoming version's flags. -/
theorem c4_flags_mirror_last_added_witness :
    (Package.add_package_version
        { Package.new fA with versions := [pvObs1], obsolete := true }
        (PackageVersion.new 2)).1 =
      { ({ Package.new fA with versions := [pvObs1], obsolete := true } : Package) with
          obsolete := (PackageVersion.new 2).obsolete,
          renamed := (PackageVersion.new 2).renamed,
          versions := [pvObs1] ++ [PackageVersion.new 2] } :=
  c4_flags_mirror_last_added _ (PackageVersion.new 2) (by decide) (by decide)

/-- Claim C7: a second `set_component` call never replaces the first
binding and reports `PackageInMultipleComponents` with the package FMRI
and both component names; the first call sets the link silently. -/
theorem c7_component_set_once (p : Package) (cNew : String) :
    (∀ cOld, p.component = some cOld →
      p.set_component cNew =
        (p, some (.PackageInMultipleComponents p.fmri [cOld, cNew])))
    ∧ (p.component = none →
      p.set_component cNew = ({ p with component := some cNew }, none)) := by
  constructor
  · intro cOld h
    unfold Package.set_component
    rw [h]
  · intro h
    unfold Package.set_component
    rw [h]

/-- Witness for C7: a package bound to component c1 keeps that binding on
an attempted rebind to c2 and yields the diagnostic naming both. -/
theorem c7_component_set_once_witness :
    ({ Package.new fA with component := some "c1" } : Package).set_component "c2"
      = ({ Package.new fA with component := some "c1" },
         some (.PackageInMultipleComponents fA ["c1", "c2"])) :=
  (c7_component_set_once { Package.new fA with component := some "c1" } "c2").1
    "c1" rfl

/-! ## Claim C1: the two-publisher conflict culprit -/

/-- FMRI named A under publisher X. -/
def fX : FMRI := ⟨"A", none, some "X"⟩

/-- FMRI named A under publisher Y. -/
def fY : FMRI := ⟨"A", none, some "Y"⟩

/-- Registry holding the live package A@2 under publisher X. -/
def csC1 : Components :=
  { components := [],
    packages := [{ Package.new fX with
      versions := [{ version := 2, runtime := [], obsolete := false, renamed := false }] }],
    problems := [] }

/-- Incoming live package A@1 under publisher Y. -/
def pkgC1 : Package := { Package.new fY with versions := [PackageVersion.new 1] }

/-- Claim C1 counterexample: existing A@2 live under X, incoming A@1 live
under Y. The claim says the culprit on a strictly greater existing
version is the existing side's publisher X; the code names the incoming
side's publisher Y. -/
theorem c1_counterexample :
    add_package csC1 pkgC1 =
      some { csC1 with problems :=
        [.SamePackageHasTwoPublishers fY "X" "Y" (some "Y")] }
    ∧ ("Y" : String) ≠ "X" := by
  exact ⟨by decide, by decide⟩

/-- Claim C1 (amended): when the first stored versions of both sides are
non-obsolete and both FMRIs carry a publisher, `add_package` always
reports `SamePackageHasTwoPublishers` naming both publishers, with the
culprit being the existing side's publisher on equal first versions and
the incoming side's publisher otherwise (also when the existing version
is strictly greater). -/
theorem c1_both_live_culprit (cs : Components) (pkg existing : Package)
    (o n : PackageVersion) (pa pb : String)
    (hex : getPackageByFmri cs pkg.fmri = some existing)
    (ho : (sortAsc existing.versions).head? = some o)
    (hn : (sortAsc pkg.versions).head? = some n)
    (hoo : o.obsolete = false) (hno : n.obsolete = false)
    (hpa : existing.fmri.publisher = some pa)
    (hpb : pkg.fmri.publisher = some pb) :
    add_package cs pkg =
      some (addProblem cs (.SamePackageHasTwoPublishers pkg.fmri pa pb
        (some (if o.version = n.version then pa else pb)))) := by
  simp only [add_package, hex, ho, hn, hoo, hno, hpa, hpb]
  rcases Nat.lt_trichotomy o.version n.version with h | h | h
  · rw [Nat.compare_eq_lt.mpr h, if_neg (Nat.ne_of_lt h)]
  · rw [Nat.compare_eq_eq.mpr h, if_pos h]
  · rw [Nat.compare_eq_gt.mpr h, if_neg (Nat.ne_of_lt h).symm]

/-- Witness for the amended C1 on an equal-version conflict: both sides
at version 1, the culprit is the existing publisher X. -/
theorem c1_both_live_culprit_witness :
    add_package
        { components := [],
          packages := [{ Package.new fX with versions := [PackageVersion.new 1] }],
          problems := [] } pkgC1 =
      some (addProblem
        { components := [],
          packages := [{ Package.new fX with versions := [PackageVersion.new 1] }],
          problems := [] }
        (.SamePackageHasTwoPublishers pkgC1.fmri "X" "Y"
          (some (if (PackageVersion.new 1).version = (PackageVersion.new 1).version
                 then "X" else "Y")))) :=
  c1_both_live_culprit _ pkgC1
    { Package.new fX with versions := [PackageVersion.new 1] }
    (PackageVersion.new 1) (PackageVersion.new 1) "X" "Y"
    (by decide) (by decide) (by decide) rfl rfl rfl rfl

/-! ## Claim C2: the useless-component first branch and sys-test dependents -/

/-- Registry for C2: component C with sole member P; P is live, has no
runtime dependents and no build/test/system-build dependents, but has one
system-test dependent component D. -/
def csC2 : Components :=
  { components :=
      [{ name := "C", packages := ["P"], build := [], test := [],
         sys_build := [], sys_test := [] }],
    packages :=
      [{ Package.new ⟨"P", none, none⟩ with
           component := some "C", sys_test_dependents := ["D"] }],
    problems := [] }

/-- Claim C2, evaluated at the failing input: the first branch of the
useless-component pass flags component C although its sole member has a
system-test dependent, because the source tests `sys_build_dependents`
twice and never `sys_test_dependents`. -/
theorem c2_sys_test_dependent_not_checked :
    passUselessComponent csC2 = .ok (addProblem csC2 (.UselessComponent "C"))
    ∧ (csC2.packages.map Package.sys_test_dependents) = [["D"]] := by
  exact ⟨rfl, rfl⟩

/-! ## Claim C9: add_repo_dependencies with the Runtime class -/

/-- Claim C9 counterexample: a Runtime-class call with an empty dependency
list returns Ok — a silent no-op, not a typed error. -/
theorem c9_counterexample :
    add_repo_dependencies
        { components := [], packages := [], problems := [] } "c" [] .Runtime
      = ({ components := [], packages := [], problems := [] }, Except.ok ()) := rfl

/-- Claim C9 (amended): a Runtime-class call never records any component
edge or package dependent (components and packages are left unchanged);
its only mutation is appending exactly one missing-target diagnostic per
unresolvable dependency FMRI before the first resolvable one; a call
whose dependency list is empty or wholly unresolvable returns Ok; and
whenever the component exists and at least one dependency FMRI resolves
to a package, the call fails with the distinct typed runtime-rejection
error. -/
theorem c9_runtime_rejected (cs : Components) (name : String)
    (deps : List FMRI) :
    ((add_repo_dependencies cs name deps .Runtime).1.components = cs.components
      ∧ (add_repo_dependencies cs name deps .Runtime).1.packages = cs.packages)
    ∧ (add_repo_dependencies cs name deps .Runtime).1.problems
        = cs.problems ++
          ((deps.takeWhile fun g => !(getPackageByFmri cs g).isSome).map
            fun g => .NonExistingRequired (.Require g) .Runtime noneFMRI name)
    ∧ ((∀ f ∈ deps, (getPackageByFmri cs f).isSome = false) →
        (add_repo_dependencies cs name deps .Runtime).2 = Except.ok ())
    ∧ ((getComponentByName cs name).isSome = true →
        (∃ f ∈ deps, (getPackageByFmri cs f).isSome = true) →
        (add_repo_dependencies cs name deps .Runtime).2
          = Except.error "can not insert runtime dependencies into component") := by
  induction deps generalizing cs with
  | nil =>
    refine ⟨⟨rfl, rfl⟩, by simp [add_repo_dependencies], fun _ => rfl,
      fun _ h => absurd h ?_⟩
    simp
  | cons f rest ih =>
    rcases hres : getPackageByFmri cs f with _ | rc
    · -- unresolvable head: one diagnostic, continue with the rest
      have hstep : add_repo_dependencies cs name (f :: rest) .Runtime =
          add_repo_dependencies
            (addProblem cs (.NonExistingRequired (.Require f) .Runtime noneFMRI name))
            name rest .Runtime := by
        simp only [add_repo_dependencies, hres]
      obtain ⟨⟨ih1, ih2⟩, ih3, ih4, ih5⟩ := ih
        (addProblem cs (.NonExistingRequired (.Require f) .Runtime noneFMRI name))
      have hpredeq : (rest.takeWhile fun g =>
            !(getPackageByFmri (addProblem cs
              (.NonExistingRequired (.Require f) .Runtime noneFMRI name)) g).isSome)
          = (rest.takeWhile fun g => !(getPackageByFmri cs g).isSome) := rfl
      have htw : (f :: rest).takeWhile
            (fun g => !(getPackageByFmri cs g).isSome)
          = f :: rest.takeWhile (fun g => !(getPackageByFmri cs g).isSome) := by
        simp [List.takeWhile_cons, hres]
      refine ⟨⟨?_, ?_⟩, ?_, ?_, ?_⟩
      · rw [hstep]
        exact ih1.trans rfl
      · rw [hstep]
        exact ih2.trans rfl
      · rw [hstep, ih3, hpredeq, htw, List.map_cons]
        simp [addProblem, List.append_assoc]
      · intro hall
        rw [hstep]
        exact ih4 fun g hg => hall g (List.mem_cons_of_mem f hg)
      · intro hcomp hex
        rw [hstep]
        obtain ⟨g, hg, hgres⟩ := hex
        rcases List.mem_cons.mp hg with hgf | hgrest
        · rw [hgf, hres] at hgres
          exact absurd hgres (by simp)
        · exact ih5 hcomp ⟨g, hgrest, hgres⟩
    · -- resolvable head: the call stops here, appending nothing
      have htw : (f :: rest).takeWhile
            (fun g => !(getPackageByFmri cs g).isSome) = [] := by
        simp [List.takeWhile_cons, hres]
      rcases hcn : getComponentByName cs name with _ | comp
      · have hstep : add_repo_dependencies cs name (f :: rest) .Runtime =
            (cs, .error "failed to get component") := by
          simp only [add_repo_dependencies, hres, hcn]
        rw [hstep, htw]
        refine ⟨⟨rfl, rfl⟩, by simp, ?_, fun hcomp _ => ?_⟩
        · intro hall
          exact absurd (hall f (List.mem_cons_self f rest)) (by rw [hres]; simp)
        · simp [hcn] at hcomp
      · have hstep : add_repo_dependencies cs name (f :: rest) .Runtime =
            (cs, .error "can not insert runtime dependencies into component") := by
          simp only [add_repo_dependencies, hres, hcn]
        rw [hstep, htw]
        refine ⟨⟨rfl, rfl⟩, by simp, ?_, fun _ _ => rfl⟩
        intro hall
        exact absurd (hall f (List.mem_cons_self f rest)) (by rw [hres]; simp)

/-- Registry for the C9 witness: component c exists and package B exists. -/
def csC9 : Components :=
  { components := [Component.new "c"], packages := [Package.new fB],
    problems := [] }

/-- Witness for the amended C9: with the existing component c, a
resolvable dependency list [B] changes no component or package and fails
with the typed error, while the wholly unresolvable list [A] returns Ok
and appends exactly one missing-target diagnostic. -/
theorem c9_runtime_rejected_witness :
    ((add_repo_dependencies csC9 "c" [fB] .Runtime).1.components = csC9.components
      ∧ (add_repo_dependencies csC9 "c" [fB] .Runtime).1.packages = csC9.packages)
    ∧ (add_repo_dependencies csC9 "c" [fB] .Runtime).2
        = Except.error "can not insert runtime dependencies into component"
    ∧ (add_repo_dependencies csC9 "c" [fA] .Runtime).2 = Except.ok ()
    ∧ (add_repo_dependencies csC9 "c" [fA] .Runtime).1.problems
        = csC9.problems ++
          [.NonExistingRequired (.Require fA) .Runtime noneFMRI "c"] := by
  refine ⟨(c9_runtime_rejected csC9 "c" [fB]).1,
    (c9_runtime_rejected csC9 "c" [fB]).2.2.2 (by decide) ⟨fB, by simp, by decide⟩,
    (c9_runtime_rejected csC9 "c" [fA]).2.2.1 (by decide), ?_⟩
  exact ((c9_runtime_rejected csC9 "c" [fA]).2.1).trans (by rfl)

/-! ## Claim C3: obsolete-propagation diagnostics per dependent -/

/-- Registry for the C3 counterexample: package A is obsolete (first
stored version obsolete) and has the non-Incorporate runtime dependent
`Require B`, but package B is itself obsolete. -/
def csC3 : Components :=
  { components := [],
    packages :=
      [{ Package.new fA with
           versions := [pvObs1]
           obsolete := true
           runtime_dependents := [.Require fB] },
       { Package.new fB with versions := [pvObs1], obsolete := true }],
    problems := [] }

/-- Claim C3 counterexample: the obsolete-propagation pass emits no
diagnostic at all for A, although A has one non-Incorporate runtime
dependent — a dependent whose own package is obsolete is skipped. -/
theorem c3_counterexample :
    passObsoletedRequired csC3 = .ok csC3
    ∧ csC3.problems = []
    ∧ (csC3.packages.map Package.runtime_dependents) = [[.Require fB], []] := by
  exact ⟨rfl, rfl, rfl⟩

/-- The diagnostic list the spec-level reading of the obsolete-propagation
rule assigns to one package: one per class-dependent component (build,
system-build, test, system-test), and one per non-Incorporate runtime
dependent whose own package is not obsolete, with the renamed variant
exactly when that package's renamed flag is set. -/
def expectedObsRequired (cs : Components) (pkg : Package)
    (pt : DependTypes → DependencyTypes → FMRI → String → Problem)
    (ptr : DependTypes → DependencyTypes → FMRI → Problem) : List Problem :=
  (pkg.build_dependents.map fun c => pt (.Require pkg.fmri) .Build noneFMRI c)
  ++ (pkg.sys_build_dependents.map fun c =>
      pt (.Require pkg.fmri) .SystemBuild noneFMRI c)
  ++ (pkg.test_dependents.map fun c => pt (.Require pkg.fmri) .Test noneFMRI c)
  ++ (pkg.sys_test_dependents.map fun c =>
      pt (.Require pkg.fmri) .SystemTest noneFMRI c)
  ++ pkg.runtime_dependents.filterMap fun d =>
      match carriedNonIncorporate d with
      | none => none
      | some f =>
        match getPackageByFmri cs f with
        | none => none
        | some p =>
          if p.obsolete then none
          else if p.renamed then some (ptr (.Require pkg.fmri) .Runtime f)
          else some (pt (.Require pkg.fmri) .Runtime f "")

/-- The runtime loop of `check_obsoleted_required_packages` computes the
spec-level per-dependent list when every dependent source resolves. -/
theorem obsRuntimeLoop_eq_filterMap (cs : Components) (pkg : Package)
    (pt : DependTypes → DependencyTypes → FMRI → String → Problem)
    (ptr : DependTypes → DependencyTypes → FMRI → Problem)
    (l : List RevDependType)
    (hres : ∀ d ∈ l, ∀ f, carriedNonIncorporate d = some f →
      (getPackageByFmri cs f).isSome = true) :
    obsRuntimeLoop cs pkg pt ptr l =
      .ok (l.filterMap fun d =>
        match carriedNonIncorporate d with
        | none => none
        | some f =>
          match getPackageByFmri cs f with
          | none => none
          | some p =>
            if p.obsolete then none
            else if p.renamed then some (ptr (.Require pkg.fmri) .Runtime f)
            else some (pt (.Require pkg.fmri) .Runtime f "")) := by
  induction l with
  | nil => rfl
  | cons d rest ih =>
    have htail := ih fun e he g hg => hres e (List.mem_cons_of_mem d he) g hg
    rcases hc : carriedNonIncorporate d with _ | f
    · simp only [obsRuntimeLoop, hc, List.filterMap_cons, htail]
    · have hs := hres d (List.mem_cons_self d rest) f hc
      rcases hp : getPackageByFmri cs f with _ | p
      · rw [hp] at hs
        exact absurd hs (by simp)
      · simp only [obsRuntimeLoop, hc, hp, htail, List.filterMap_cons, bind,
          Except.bind]
        by_cases hob : p.obsolete = true
        · simp [hob]
        · by_cases hren : p.renamed = true
          · simp [hob, hren]
          · simp [hob, hren]

/-- Claim C3 (amended): for a package inspected by the obsolete-propagation
pass, provided every runtime-dependent source resolves, the
`ObsoletedRequired`-family diagnostics are exactly: one per
build/system-build/test/system-test dependent component, and one per
non-Incorporate runtime dependent whose own package is not obsolete, the
`ByRenamed` variant chosen exactly when that dependent package's renamed
flag is set; non-Incorporate dependents whose package is obsolete are
skipped. -/
theorem c3_obsoleted_required_per_dependent (cs : Components) (pkg : Package)
    (hres : ∀ d ∈ pkg.runtime_dependents, ∀ f, carriedNonIncorporate d = some f →
      (getPackageByFmri cs f).isSome = true) :
    check_obsoleted_required_packages cs pkg
        .ObsoletedRequired .ObsoletedRequiredByRenamed
      = .ok (expectedObsRequired cs pkg
          .ObsoletedRequired .ObsoletedRequiredByRenamed) := by
  unfold check_obsoleted_required_packages expectedObsRequired
  rw [obsRuntimeLoop_eq_filterMap cs pkg _ _ pkg.runtime_dependents hres]
  simp [bind, Except.bind, List.append_assoc]

/-- Registry for the C3 witness: targets of A's dependents are a plain
package B, a renamed package R and an obsolete package O. -/
def csC3w : Components :=
  { components := [],
    packages :=
      [Package.new fB,
       { Package.new ⟨"R", none, none⟩ with renamed := true },
       { Package.new ⟨"O", none, none⟩ with obsolete := true }],
    problems := [] }

/-- The package for the C3 witness: one build dependent and four runtime
dependents (plain, renamed, obsolete, Incorporate). -/
def pkgC3w : Package :=
  { Package.new fA with
      build_dependents := ["K"]
      runtime_dependents :=
        [.Require fB, .Require ⟨"R", none, none⟩,
         .Require ⟨"O", none, none⟩, .Incorporate fB] }

/-- Witness for the amended C3: the diagnostics are exactly one for the
build dependent, one plain for B, one `ByRenamed` for R; the dependent
with obsolete source O and the `Incorporate` edge yield none. -/
theorem c3_obsoleted_required_per_dependent_witness :
    check_obsoleted_required_packages csC3w pkgC3w
        .ObsoletedRequired .ObsoletedRequiredByRenamed
      = .ok [.ObsoletedRequired (.Require fA) .Build noneFMRI "K",
             .ObsoletedRequired (.Require fA) .Runtime fB "",
             .ObsoletedRequiredByRenamed (.Require fA) .Runtime
               ⟨"R", none, none⟩] :=
  (c3_obsoleted_required_per_dependent csC3w pkgC3w
    (by
      intro d hd f hf
      fin_cases hd <;> simp [carriedNonIncorporate] at hf <;> subst hf <;> rfl)).trans
    (by rfl)

/-! ## Claim C6: remove_old_versions keeps the single highest live version -/

instance : IsTotal PackageVersion (fun a b => b.version ≤ a.version) :=
  ⟨fun a b => Nat.le_total b.version a.version⟩

instance : IsTrans PackageVersion (fun a b => b.version ≤ a.version) :=
  ⟨fun _ _ _ hab hbc => Nat.le_trans hbc hab⟩

/-- `sortDesc` sorts descending by version. -/
theorem sortDesc_sorted (vs : List PackageVersion) :
    List.Sorted (fun a b => b.version ≤ a.version) (sortDesc vs) :=
  List.sorted_insertionSort _ vs

/-- `sortDesc` permutes its input. -/
theorem sortDesc_perm (vs : List PackageVersion) : (sortDesc vs).Perm vs :=
  List.perm_insertionSort _ vs

/-- In a descending-sorted list, the first element matching a predicate
has the greatest version among all matching elements. -/
theorem find?_sorted_is_max (q : PackageVersion → Bool) :
    ∀ (l : List PackageVersion),
      List.Sorted (fun a b => b.version ≤ a.version) l →
      ∀ v, l.find? q = some v →
        v ∈ l ∧ q v = true ∧ ∀ w ∈ l, q w = true → w.version ≤ v.version := by
  intro l
  induction l with
  | nil => intro _ v hf; simp at hf
  | cons a t ih =>
    intro hs v hf
    by_cases hq : q a = true
    · rw [List.find?_cons_of_pos _ hq] at hf
      obtain rfl : a = v := by injection hf
      refine ⟨List.mem_cons_self a t, hq, ?_⟩
      intro w hw _
      rcases List.mem_cons.mp hw with rfl | hw
      · exact Nat.le_refl _
      · exact (List.sorted_cons.mp hs).1 w hw
    · rw [List.find?_cons_of_neg _ hq] at hf
      obtain ⟨h1, h2, h3⟩ := ih (List.sorted_cons.mp hs).2 v hf
      refine ⟨List.mem_cons_of_mem a h1, h2, ?_⟩
      intro w hw hqw
      rcases List.mem_cons.mp hw with rfl | hw
      · exact absurd hqw hq
      · exact h3 w hw hqw

/-- In a descending-sorted list, the head has the greatest version. -/
theorem head_sorted_is_max (a : PackageVersion) (t : List PackageVersion)
    (hs : List.Sorted (fun a b => b.version ≤ a.version) (a :: t)) :
    ∀ w ∈ a :: t, w.version ≤ a.version := by
  intro w hw
  rcases List.mem_cons.mp hw with rfl | hw
  · exact Nat.le_refl _
  · exact (List.sorted_cons.mp hs).1 w hw

/-- `pruneOne` keeps exactly one stored version: the highest version that
is neither obsolete nor renamed when one exists, else the highest version
overall — always one of the originally stored `PackageVersion` records. -/
theorem pruneOne_spec (p : Package) (hne : p.versions ≠ []) :
    ∃ v, pruneOne p = some { p with versions := [v] } ∧ v ∈ p.versions ∧
      ((∃ w ∈ p.versions, w.obsolete = false ∧ w.renamed = false) →
        v.obsolete = false ∧ v.renamed = false ∧
          ∀ w ∈ p.versions, w.obsolete = false → w.renamed = false →
            w.version ≤ v.version) ∧
      ((∀ w ∈ p.versions, w.obsolete = true ∨ w.renamed = true) →
        ∀ w ∈ p.versions, w.version ≤ v.version) := by
  have hperm := sortDesc_perm p.versions
  have hs := sortDesc_sorted p.versions
  have hqiff : ∀ w : PackageVersion,
      (!w.obsolete && !w.renamed) = true ↔ (w.obsolete = false ∧ w.renamed = false) := by
    intro w
    simp [Bool.and_eq_true]
  obtain ⟨a, t, hlist⟩ : ∃ a t, sortDesc p.versions = a :: t := by
    rcases hl : sortDesc p.versions with _ | ⟨a, t⟩
    · rw [hl] at hperm
      exact absurd hperm.symm.eq_nil hne
    · exact ⟨a, t, rfl⟩
  rw [hlist] at hperm hs
  rcases hfind : (a :: t).find? (fun v => !v.obsolete && !v.renamed) with _ | v
  · -- no live version: the survivor is the head, the overall maximum
    have hrun : pruneOne p = some { p with versions := [a] } := by
      unfold pruneOne
      rw [hlist, hfind]
      rfl
    have hnone := List.find?_eq_none.mp hfind
    refine ⟨a, hrun, hperm.mem_iff.mp (List.mem_cons_self a t), ?_, ?_⟩
    · intro hlive
      obtain ⟨w, hw, hwo, hwr⟩ := hlive
      have hwmem : w ∈ a :: t := hperm.mem_iff.mpr hw
      exact absurd ((hqiff w).mpr ⟨hwo, hwr⟩) (by simpa using hnone w hwmem)
    · intro _ w hw
      exact head_sorted_is_max a t hs w (hperm.mem_iff.mpr hw)
  · -- a live version exists: the survivor is the first live one in
    -- descending order, i.e. the maximal live version
    have hrun : pruneOne p = some { p with versions := [v] } := by
      unfold pruneOne
      rw [hlist, hfind]
      rfl
    obtain ⟨hvm, hvq, hvmax⟩ := find?_sorted_is_max _ (a :: t) hs v hfind
    obtain ⟨hvo, hvr⟩ := (hqiff v).mp hvq
    refine ⟨v, hrun, hperm.mem_iff.mp hvm, ?_, ?_⟩
    · intro _
      refine ⟨hvo, hvr, ?_⟩
      intro w hw hwo hwr
      exact hvmax w (hperm.mem_iff.mpr hw) ((hqiff w).mpr ⟨hwo, hwr⟩)
    · intro hdead
      have := hdead v (hperm.mem_iff.mp hvm)
      rcases this with h1 | h1
      · rw [hvo] at h1; cases h1
      · rw [hvr] at h1; cases h1

/-- `mapM` over `Option` succeeds pointwise and relates input to output. -/
theorem mapM_option_forall₂ {α β : Type} (f : α → Option β)
    (R : α → β → Prop) :
    ∀ (l : List α), (∀ a ∈ l, ∃ b, f a = some b ∧ R a b) →
      ∃ l2, l.mapM f = some l2 ∧ List.Forall₂ R l l2 := by
  intro l
  induction l with
  | nil => exact fun _ => ⟨[], rfl, List.Forall₂.nil⟩
  | cons a t ih =>
    intro h
    obtain ⟨b, hb, hR⟩ := h a (List.mem_cons_self a t)
    obtain ⟨t2, ht2, hf⟩ := ih fun x hx => h x (List.mem_cons_of_mem a hx)
    refine ⟨b :: t2, ?_, List.Forall₂.cons hR hf⟩
    rw [List.mapM_cons, hb, ht2]
    rfl

/-- The survivor relation of the version-pruning spec: the pruned package
stores exactly one version, one of the originally stored records; it is
the maximal live (neither obsolete nor renamed) version when one exists,
else the maximal version overall. -/
def survivorRel (p q : Package) : Prop :=
  ∃ v, q = { p with versions := [v] } ∧ v ∈ p.versions ∧
    ((∃ w ∈ p.versions, w.obsolete = false ∧ w.renamed = false) →
      v.obsolete = false ∧ v.renamed = false ∧
        ∀ w ∈ p.versions, w.obsolete = false → w.renamed = false →
          w.version ≤ v.version) ∧
    ((∀ w ∈ p.versions, w.obsolete = true ∨ w.renamed = true) →
      ∀ w ∈ p.versions, w.version ≤ v.version)

/-- Claim C6: for a registry in which every package stores at least one
version, `remove_old_versions` succeeds and leaves each package with
exactly one stored version: the highest version that is neither obsolete
nor renamed when such a version exists, otherwise the single highest
version regardless of flags — the surviving `PackageVersion` record (with
its own flags) being one of the originally stored ones. -/
theorem c6_single_highest_survivor (cs : Components)
    (h : ∀ p ∈ cs.packages, p.versions ≠ []) :
    ∃ cs2, remove_old_versions cs = some cs2 ∧
      List.Forall₂ survivorRel cs.packages cs2.packages := by
  obtain ⟨ps, hps, hfa⟩ := mapM_option_forall₂ pruneOne survivorRel cs.packages
    (fun p hp => by
      obtain ⟨v, h1, h2, h3, h4⟩ := pruneOne_spec p (h p hp)
      exact ⟨_, h1, v, rfl, h2, h3, h4⟩)
  refine ⟨{ cs with packages := ps }, ?_, hfa⟩
  unfold remove_old_versions
  rw [hps]
  rfl

/-- Registry for the C6 witness: one package with an obsolete version 3,
a live version 2 and a live version 1 — the survivor must be version 2. -/
def csC6 : Components :=
  { components := [],
    packages :=
      [{ Package.new fA with
           versions :=
             [PackageVersion.new 1,
              { version := 3, runtime := [], obsolete := true, renamed := false },
              PackageVersion.new 2] }],
    problems := [] }

/-- Witness for C6 at the concrete registry. -/
theorem c6_single_highest_survivor_witness :
    ∃ cs2, remove_old_versions csC6 = some cs2 ∧
      List.Forall₂ survivorRel csC6.packages cs2.packages :=
  c6_single_highest_survivor csC6 (by decide)

/-! ## Claim C5: reverse distribution — grouping map lemmas -/

/-- Lookup of the accumulated edge list for one target key. -/
def lookupEdges (m : List (FMRI × List RevDependType)) (f : FMRI) :
    Option (List RevDependType) :=
  (m.find? fun en => en.1 = f).map Prod.snd

/-- Lookup finds a matching head. -/
theorem lookupEdges_cons_self (k : FMRI) (es : List RevDependType)
    (tl : List (FMRI × List RevDependType)) :
    lookupEdges ((k, es) :: tl) k = some es := by
  unfold lookupEdges
  rw [List.find?_cons_of_pos]
  · rfl
  · simp

/-- Lookup skips a non-matching head. -/
theorem lookupEdges_cons_ne (k : FMRI) (es : List RevDependType)
    (tl : List (FMRI × List RevDependType)) (g : FMRI) (h : ¬k = g) :
    lookupEdges ((k, es) :: tl) g = lookupEdges tl g := by
  unfold lookupEdges
  rw [List.find?_cons_of_neg]
  simp [h]

/-- `addEdge` on the looked-up key: fresh keys get the singleton list,
existing keys get the edge appended unless already present. -/
theorem lookupEdges_addEdge_self (f : FMRI) (e : RevDependType) :
    ∀ m, lookupEdges (addEdge m f e) f =
      some (match lookupEdges m f with
        | none => [e]
        | some es => if e ∈ es then es else es ++ [e]) := by
  intro m
  induction m with
  | nil =>
    rw [show addEdge [] f e = [(f, [e])] from rfl, lookupEdges_cons_self]
    rfl
  | cons en rest ih =>
    obtain ⟨g, es⟩ := en
    by_cases hg : g = f
    · subst hg
      rw [show addEdge ((g, es) :: rest) g e =
            (g, if e ∈ es then es else es ++ [e]) :: rest from by
          simp [addEdge]]
      rw [lookupEdges_cons_self, lookupEdges_cons_self]
    · rw [show addEdge ((g, es) :: rest) f e = (g, es) :: addEdge rest f e from by
          simp [addEdge, hg]]
      rw [lookupEdges_cons_ne g es _ f hg, lookupEdges_cons_ne g es rest f hg]
      exact ih

/-- `addEdge` leaves other keys untouched. -/
theorem lookupEdges_addEdge_other (f g : FMRI) (hne : ¬g = f)
    (e : RevDependType) :
    ∀ m, lookupEdges (addEdge m f e) g = lookupEdges m g := by
  intro m
  induction m with
  | nil =>
    rw [show addEdge [] f e = [(f, [e])] from rfl,
      lookupEdges_cons_ne f [e] [] g (fun h2 => hne h2.symm)]
  | cons en rest ih =>
    obtain ⟨k, es⟩ := en
    by_cases hk : k = f
    · subst hk
      rw [show addEdge ((k, es) :: rest) k e =
            (k, if e ∈ es then es else es ++ [e]) :: rest from by
          simp [addEdge]]
      rw [lookupEdges_cons_ne k _ rest g (fun h2 => hne h2.symm),
        lookupEdges_cons_ne k es rest g (fun h2 => hne h2.symm)]
    · rw [show addEdge ((k, es) :: rest) f e = (k, es) :: addEdge rest f e from by
          simp [addEdge, hk]]
      by_cases hkg : k = g
      · subst hkg
        rw [lookupEdges_cons_self, lookupEdges_cons_self]
      · rw [lookupEdges_cons_ne k es _ g hkg, lookupEdges_cons_ne k es rest g hkg]
        exact ih

/-- The key list after `addEdge`. -/
theorem keys_addEdge (f : FMRI) (e : RevDependType) :
    ∀ m, (addEdge m f e).map Prod.fst =
      if f ∈ m.map Prod.fst then m.map Prod.fst else m.map Prod.fst ++ [f] := by
  intro m
  induction m with
  | nil => simp [addEdge]
  | cons en rest ih =>
    obtain ⟨g, es⟩ := en
    by_cases hg : g = f
    · subst hg
      simp [addEdge]
    · simp only [addEdge, if_neg hg, List.map_cons, ih, List.mem_cons]
      by_cases hf : f ∈ rest.map Prod.fst
      · simp [hf]
      · have hfg : ¬f = g := fun h2 => hg h2.symm
        simp [hf, hfg]

/-- `addEdge` preserves key uniqueness. -/
theorem keysNodup_addEdge (f : FMRI) (e : RevDependType)
    (m : List (FMRI × List RevDependType))
    (h : (m.map Prod.fst).Nodup) : ((addEdge m f e).map Prod.fst).Nodup := by
  rw [keys_addEdge]
  by_cases hf : f ∈ m.map Prod.fst
  · simpa [hf] using h
  · simp [hf, List.nodup_append, h]

/-- The grouped map built by `groupEdges` has pairwise distinct keys. -/
theorem keysNodup_groupEdges (l : List (FMRI × RevDependType)) :
    ((groupEdges l).map Prod.fst).Nodup := by
  suffices h : ∀ (l2 : List (FMRI × RevDependType))
      (m : List (FMRI × List RevDependType)), (m.map Prod.fst).Nodup →
      ((l2.foldl (fun m fe => addEdge m fe.1 fe.2) m).map Prod.fst).Nodup by
    exact h l [] (by simp)
  intro l2
  induction l2 with
  | nil => exact fun m h => h
  | cons fe rest ih =>
    intro m h
    exact ih _ (keysNodup_addEdge fe.1 fe.2 m h)

/-- The grouping invariant: looked-up batches are duplicate-free and hold
exactly the edges generated for that key so far. -/
def MInv (pre : List (FMRI × RevDependType))
    (m : List (FMRI × List RevDependType)) : Prop :=
  ∀ f : FMRI,
    (lookupEdges m f = none → ∀ e, (f, e) ∉ pre) ∧
    (∀ es, lookupEdges m f = some es →
      es.Nodup ∧ ∀ e, (e ∈ es ↔ (f, e) ∈ pre))

/-- One `addEdge` step preserves the grouping invariant. -/
theorem mInv_addEdge (pre : List (FMRI × RevDependType))
    (m : List (FMRI × List RevDependType)) (f : FMRI) (e : RevDependType)
    (h : MInv pre m) : MInv (pre ++ [(f, e)]) (addEdge m f e) := by
  have hpair : ∀ (g : FMRI) (x : RevDependType),
      (g, x) ∈ pre ++ [(f, e)] ↔ ((g, x) ∈ pre ∨ (g = f ∧ x = e)) := by
    intro g x
    simp [List.mem_append, Prod.mk.injEq]
  intro g
  by_cases hg : g = f
  · subst hg
    refine ⟨?_, ?_⟩
    · intro hnone
      rw [lookupEdges_addEdge_self] at hnone
      exact absurd hnone (by simp)
    · intro es hes
      rcases hm : lookupEdges m g with _ | es0
      · rw [lookupEdges_addEdge_self, hm] at hes
        have hes2 : [e] = es := by simpa using hes
        subst hes2
        have hpre := (h g).1 hm
        refine ⟨List.nodup_singleton e, fun x => ?_⟩
        rw [hpair g x, List.mem_singleton]
        constructor
        · rintro rfl
          exact Or.inr ⟨rfl, rfl⟩
        · rintro (hp | ⟨_, rfl⟩)
          · exact absurd hp (hpre x)
          · rfl
      · rw [lookupEdges_addEdge_self, hm] at hes
        obtain ⟨hnd, hmem⟩ := (h g).2 es0 hm
        have hes2 : (if e ∈ es0 then es0 else es0 ++ [e]) = es := by
          simpa using hes
        subst hes2
        by_cases he : e ∈ es0
        · rw [if_pos he]
          refine ⟨hnd, fun x => ?_⟩
          rw [hpair g x]
          constructor
          · intro hx
            exact Or.inl ((hmem x).mp hx)
          · rintro (hp | ⟨_, rfl⟩)
            · exact (hmem x).mpr hp
            · exact he
        · rw [if_neg he]
          refine ⟨by simp [List.nodup_append, hnd, he], fun x => ?_⟩
          rw [hpair g x, List.mem_append, List.mem_singleton]
          constructor
          · rintro (hx | rfl)
            · exact Or.inl ((hmem x).mp hx)
            · exact Or.inr ⟨rfl, rfl⟩
          · rintro (hp | ⟨_, rfl⟩)
            · exact Or.inl ((hmem x).mpr hp)
            · exact Or.inr rfl
  · refine ⟨?_, ?_⟩
    · intro hnone x hmem
      rw [lookupEdges_addEdge_other f g hg e] at hnone
      rcases (hpair g x).mp hmem with hp | ⟨hgf, _⟩
      · exact (h g).1 hnone x hp
      · exact hg hgf
    · intro es hes
      rw [lookupEdges_addEdge_other f g hg e] at hes
      obtain ⟨hnd, hmem⟩ := (h g).2 es hes
      refine ⟨hnd, fun x => ?_⟩
      rw [hpair g x, hmem x]
      constructor
      · exact Or.inl
      · rintro (hp | ⟨hgf, _⟩)
        · exact hp
        · exact absurd hgf hg

/-- The grouping invariant holds along the whole generation fold. -/
theorem mInv_foldl :
    ∀ (l pre : List (FMRI × RevDependType))
      (m : List (FMRI × List RevDependType)), MInv pre m →
      MInv (pre ++ l) (l.foldl (fun m fe => addEdge m fe.1 fe.2) m) := by
  intro l
  induction l with
  | nil =>
    intro pre m h
    simpa using h
  | cons fe rest ih =>
    intro pre m h
    have h2 := mInv_addEdge pre m fe.1 fe.2 h
    have h3 := ih (pre ++ [(fe.1, fe.2)]) (addEdge m fe.1 fe.2) h2
    simpa [List.append_assoc] using h3

/-- The grouping invariant for `groupEdges` itself. -/
theorem mInv_groupEdges (l : List (FMRI × RevDependType)) :
    MInv l (groupEdges l) := by
  have hbase : MInv [] [] := by
    intro f
    constructor
    · intro _ e h2
      exact absurd h2 (List.not_mem_nil _)
    · intro es hes
      simp [lookupEdges] at hes
  have h2 := mInv_foldl l [] [] hbase
  simpa [groupEdges] using h2

/-- With unique keys, map membership coincides with lookup. -/
theorem mem_iff_lookupEdges :
    ∀ (m : List (FMRI × List RevDependType)), (m.map Prod.fst).Nodup →
      ∀ (f : FMRI) (es : List RevDependType),
      ((f, es) ∈ m ↔ lookupEdges m f = some es) := by
  intro m
  induction m with
  | nil =>
    intro _ f es
    simp [lookupEdges]
  | cons en rest ih =>
    intro hnd f es
    obtain ⟨g, es2⟩ := en
    rw [List.map_cons, List.nodup_cons] at hnd
    by_cases hg : g = f
    · subst hg
      rw [lookupEdges_cons_self]
      simp only [List.mem_cons, Option.some.injEq, Prod.mk.injEq]
      constructor
      · rintro (⟨_, h2⟩ | h1)
        · exact h2.symm
        · exact absurd (List.mem_map_of_mem Prod.fst h1) hnd.1
      · intro h2
        exact Or.inl ⟨trivial, h2.symm⟩
    · rw [lookupEdges_cons_ne g es2 rest f hg, ← ih hnd.2 f es]
      simp only [List.mem_cons, Prod.mk.injEq]
      constructor
      · rintro (⟨h1, _⟩ | h1)
        · exact absurd h1.symm hg
        · exact h1
      · exact Or.inr

/-! ## Claim C5: reverse distribution — final state lemmas -/

/-- The identity-and-renamed view of a package; the distribution loop
never changes it. -/
def pview (p : Package) : FMRI × Bool := (p.fmri, p.renamed)

/-- `updateFirst` and `find?` on the updated key. -/
theorem find?_updateFirst_self {α : Type} (q : α → Bool) (g : α → α)
    (hg : ∀ a, q a = true → q (g a) = true) :
    ∀ l, (updateFirst l q g).find? q = (l.find? q).map g := by
  intro l
  induction l with
  | nil => rfl
  | cons a t ih =>
    by_cases hqa : q a = true
    · rw [show updateFirst (a :: t) q g = g a :: t from by simp [updateFirst, hqa],
        List.find?_cons_of_pos t (hg a hqa), List.find?_cons_of_pos t hqa]
      rfl
    · rw [show updateFirst (a :: t) q g = a :: updateFirst t q g from by
          simp [updateFirst, hqa],
        List.find?_cons_of_neg t hqa, List.find?_cons_of_neg (updateFirst t q g) hqa]
      exact ih

/-- `updateFirst` and `find?` on a disjoint key. -/
theorem find?_updateFirst_other {α : Type} (q q2 : α → Bool) (g : α → α)
    (hpres : ∀ a, q2 (g a) = q2 a) (hdisj : ∀ a, q a = true → q2 a = false) :
    ∀ l, (updateFirst l q g).find? q2 = l.find? q2 := by
  intro l
  induction l with
  | nil => rfl
  | cons a t ih =>
    by_cases hqa : q a = true
    · have h2 : q2 a = false := hdisj a hqa
      rw [show updateFirst (a :: t) q g = g a :: t from by simp [updateFirst, hqa],
        List.find?_cons_of_neg t (by simp [hpres a, h2]),
        List.find?_cons_of_neg t (by simp [h2])]
    · rw [show updateFirst (a :: t) q g = a :: updateFirst t q g from by
          simp [updateFirst, hqa]]
      by_cases hq2 : q2 a = true
      · rw [List.find?_cons_of_pos _ hq2, List.find?_cons_of_pos _ hq2]
      · rw [List.find?_cons_of_neg _ hq2, List.find?_cons_of_neg _ hq2]
        exact ih

/-- `updateFirst` preserves any per-element view the update preserves. -/
theorem map_updateFirst {α β : Type} (pv : α → β) (q : α → Bool) (g : α → α)
    (hpv : ∀ a, pv (g a) = pv a) :
    ∀ l, (updateFirst l q g).map pv = l.map pv := by
  intro l
  induction l with
  | nil => rfl
  | cons a t ih =>
    by_cases hqa : q a = true
    · rw [show updateFirst (a :: t) q g = g a :: t from by simp [updateFirst, hqa]]
      simp [hpv a]
    · rw [show updateFirst (a :: t) q g = a :: updateFirst t q g from by
        simp [updateFirst, hqa]]
      simp [ih]

/-- Name lookup is determined by the `pview` image of the package list. -/
theorem find?_name_congr :
    ∀ (l1 l2 : List Package), l1.map pview = l2.map pview →
      ∀ nm : String,
      ((l1.find? fun p => p.fmri.name = nm).map pview)
        = ((l2.find? fun p => p.fmri.name = nm).map pview) := by
  intro l1
  induction l1 with
  | nil =>
    intro l2 h nm
    cases l2 with
    | nil => rfl
    | cons b t2 => simp at h
  | cons a t ih =>
    intro l2 h nm
    cases l2 with
    | nil => simp at h
    | cons b t2 =>
      rw [List.map_cons, List.map_cons] at h
      injection h with hab ht
      have hname : a.fmri.name = b.fmri.name := by
        have h2 : a.fmri = b.fmri := congrArg Prod.fst hab
        rw [h2]
      by_cases hq : a.fmri.name = nm
      · have hq2 : b.fmri.name = nm := by rw [← hname]; exact hq
        rw [List.find?_cons_of_pos _ (by simp [hq]),
          List.find?_cons_of_pos _ (by simp [hq2])]
        simp [hab]
      · have hq2 : ¬b.fmri.name = nm := by rw [← hname]; exact hq
        rw [List.find?_cons_of_neg _ (by simp [hq]),
          List.find?_cons_of_neg _ (by simp [hq2])]
        exact ih t2 ht nm

/-- Registry-level variant of `find?_name_congr`. -/
theorem getPackageByName_congr (cs1 cs2 : Components)
    (h : cs1.packages.map pview = cs2.packages.map pview) (nm : String) :
    (getPackageByName cs1 nm).map pview = (getPackageByName cs2 nm).map pview :=
  find?_name_congr cs1.packages cs2.packages h nm

/-- Resolvability is determined by the `pview` image. -/
theorem getPackageByName_isSome_congr (cs1 cs2 : Components)
    (h : cs1.packages.map pview = cs2.packages.map pview) (nm : String) :
    (getPackageByName cs1 nm).isSome = (getPackageByName cs2 nm).isSome := by
  have h2 := getPackageByName_congr cs1 cs2 h nm
  rcases h1 : getPackageByName cs1 nm with _ | p1 <;>
    rcases h3 : getPackageByName cs2 nm with _ | p2 <;>
    rw [h1, h3] at h2 <;> simp_all

/-- The source FMRI carried by a reverse edge. -/
def revSource : RevDependType → FMRI
  | .Require f | .Optional f | .Incorporate f | .RequireAny f
  | .ConditionalFmri f | .ConditionalPredicate f | .Group f => f

/-- The `DependTypes` value rebuilt for the missing-target diagnostic. -/
def revToDep : RevDependType → FMRI → DependTypes
  | .Require _, t => .Require t
  | .Optional _, t => .Optional t
  | .Incorporate _, t => .Incorporate t
  | .RequireAny _, t => .RequireAny [t]
  | .ConditionalFmri _, t => .Conditional t noneFMRI
  | .ConditionalPredicate _, t => .Conditional noneFMRI t
  | .Group _, t => .Group t

/-- Closed form of `missingDiagOf`. -/
theorem missingDiagOf_shape (cs : Components) (t : FMRI) (e : RevDependType) :
    missingDiagOf cs t e =
      (getPackageByName cs (revSource e).name).map fun p =>
        if p.renamed then
          .NonExistingRequiredByRenamed (revToDep e t) .Runtime (revSource e)
        else .NonExistingRequired (revToDep e t) .Runtime (revSource e) "" := by
  cases e <;> rename_i f <;>
    rcases h : getPackageByName cs f.name with _ | p <;>
      simp [missingDiagOf, getPackageByFmri, revSource, revToDep, h]

/-- The missing-target diagnostic is determined by the `pview` image. -/
theorem missingDiagOf_congr (cs1 cs2 : Components)
    (h : cs1.packages.map pview = cs2.packages.map pview) (t : FMRI)
    (e : RevDependType) : missingDiagOf cs1 t e = missingDiagOf cs2 t e := by
  rw [missingDiagOf_shape, missingDiagOf_shape]
  have h2 := getPackageByName_congr cs1 cs2 h (revSource e).name
  rcases h1 : getPackageByName cs1 (revSource e).name with _ | p1 <;>
    rcases h3 : getPackageByName cs2 (revSource e).name with _ | p2 <;>
    rw [h1, h3] at h2 <;> simp_all [pview, Prod.mk.injEq]

/-- The pending diagnostics of the remaining keys are determined by the
`pview` image. -/
theorem diagsFor_congr (cs1 cs2 : Components)
    (h : cs1.packages.map pview = cs2.packages.map pview)
    (l : List (FMRI × List RevDependType)) :
    (l.flatMap fun en =>
        if (getPackageByName cs1 en.1.name).isSome then []
        else en.2.filterMap (missingDiagOf cs1 en.1))
      = (l.flatMap fun en =>
        if (getPackageByName cs2 en.1.name).isSome then []
        else en.2.filterMap (missingDiagOf cs2 en.1)) := by
  induction l with
  | nil => rfl
  | cons en rest ih =>
    rw [List.flatMap_cons, List.flatMap_cons, ih,
      getPackageByName_isSome_congr cs1 cs2 h en.1.name,
      show missingDiagOf cs1 en.1 = missingDiagOf cs2 en.1 from
        funext fun e => missingDiagOf_congr cs1 cs2 h en.1 e]

/-- `distributeDiags` appends exactly one diagnostic per accumulated edge
of an unresolvable key. -/
theorem distributeDiags_spec (t : FMRI) :
    ∀ (es : List RevDependType) (acc acc2 : Components),
      distributeDiags acc t es = some acc2 →
      acc2 = { acc with problems :=
        acc.problems ++ es.filterMap (missingDiagOf acc t) } := by
  intro es
  induction es with
  | nil =>
    intro acc acc2 h
    have h2 : acc = acc2 := by simpa [distributeDiags] using h
    subst h2
    simp
  | cons e rest ih =>
    intro acc acc2 h
    rcases hd : missingDiagOf acc t e with _ | pr
    · rw [show distributeDiags acc t (e :: rest) =
          match missingDiagOf acc t e with
          | none => none
          | some pr => distributeDiags (addProblem acc pr) t rest from rfl,
        hd] at h
      exact absurd h (by simp)
    · rw [show distributeDiags acc t (e :: rest) =
          match missingDiagOf acc t e with
          | none => none
          | some pr => distributeDiags (addProblem acc pr) t rest from rfl,
        hd] at h
      have h2 := ih (addProblem acc pr) acc2 h
      subst h2
      have hstab : missingDiagOf (addProblem acc pr) t = missingDiagOf acc t :=
        funext fun e2 => missingDiagOf_congr (addProblem acc pr) acc rfl t e2
      rw [hstab]
      simp [addProblem, List.filterMap_cons, hd, List.append_assoc]

/-- The resolvable-key branch of the distribution loop. -/
theorem distributeStep_some (acc : Components)
    (entry : FMRI × List RevDependType) (p : Package)
    (hp : getPackageByName acc entry.1.name = some p) :
    distributeStep acc entry = some (updatePackage acc entry.1.name fun q =>
      { q with runtime_dependents := q.runtime_dependents ++ entry.2 }) := by
  unfold distributeStep
  rw [show getPackageByFmri acc entry.1 = getPackageByName acc entry.1.name
      from rfl, hp]

/-- The unresolvable-key branch of the distribution loop. -/
theorem distributeStep_none (acc : Components)
    (entry : FMRI × List RevDependType) (acc2 : Components)
    (hp : getPackageByName acc entry.1.name = none)
    (h : distributeStep acc entry = some acc2) :
    acc2 = { acc with problems :=
      acc.problems ++ entry.2.filterMap (missingDiagOf acc entry.1) } := by
  unfold distributeStep at h
  rw [show getPackageByFmri acc entry.1 = getPackageByName acc entry.1.name
      from rfl, hp] at h
  exact distributeDiags_spec entry.1 entry.2 acc acc2 h

/-- The distribution fold: components unchanged, package views unchanged,
each resolvable name gains exactly the batches of its keys in key order,
and the problems sink gains exactly the per-edge diagnostics of the
unresolvable keys. -/
theorem foldlM_distributeStep_spec :
    ∀ (entries : List (FMRI × List RevDependType)) (acc cs2 : Components),
      List.foldlM distributeStep acc entries = some cs2 →
      cs2.components = acc.components
      ∧ cs2.packages.map pview = acc.packages.map pview
      ∧ (∀ nm p2, getPackageByName cs2 nm = some p2 →
          ∃ p, getPackageByName acc nm = some p ∧
            p2.runtime_dependents = p.runtime_dependents ++
              ((entries.filter fun en => en.1.name = nm).flatMap Prod.snd))
      ∧ cs2.problems = acc.problems ++
          (entries.flatMap fun en =>
            if (getPackageByName acc en.1.name).isSome then []
            else en.2.filterMap (missingDiagOf acc en.1)) := by
  intro entries
  induction entries with
  | nil =>
    intro acc cs2 h
    have h2 : acc = cs2 := by simpa using h
    subst h2
    refine ⟨rfl, rfl, ?_, by simp⟩
    intro nm p2 hp2
    exact ⟨p2, hp2, by simp⟩
  | cons en rest ih =>
    intro acc cs2 h
    rw [List.foldlM_cons] at h
    rcases hstep : distributeStep acc en with _ | acc1
    · rw [hstep] at h
      exact absurd h (by simp)
    · rw [hstep] at h
      have h2 : List.foldlM distributeStep acc1 rest = some cs2 := h
      obtain ⟨ihc, ihv, ihrt, ihpr⟩ := ih acc1 cs2 h2
      rcases hp : getPackageByName acc en.1.name with _ | p0
      · -- unresolvable key: only the problems sink changes
        have hacc1 := distributeStep_none acc en acc1 hp hstep
        subst hacc1
        refine ⟨ihc, ihv, ?_, ?_⟩
        · intro nm p2 hp2
          obtain ⟨p, hp3, hrt⟩ := ihrt nm p2 hp2
          refine ⟨p, hp3, ?_⟩
          rw [hrt]
          have hne : ¬(en.1.name = nm) := by
            intro hnm
            rw [hnm] at hp
            exact absurd (show getPackageByName acc nm = some p from hp3)
              (by rw [hp]; simp)
          rw [List.filter_cons_of_neg (by simp [hne])]
        · rw [ihpr]
          have hview : ({ acc with problems :=
              acc.problems ++ en.2.filterMap (missingDiagOf acc en.1) } :
                Components).packages.map pview = acc.packages.map pview := rfl
          rw [diagsFor_congr _ acc hview rest, List.flatMap_cons,
            show (if (getPackageByName acc en.1.name).isSome then
                ([] : List Problem)
              else en.2.filterMap (missingDiagOf acc en.1)) =
                en.2.filterMap (missingDiagOf acc en.1) from by rw [hp]; rfl,
            List.append_assoc]
      · -- resolvable key: runtime dependents of that name grow by the batch
        have hs := distributeStep_some acc en p0 hp
        rw [hstep] at hs
        injection hs with hs
        have hview1 : acc1.packages.map pview = acc.packages.map pview := by
          rw [hs]
          exact map_updateFirst pview (fun p => p.fmri.name = en.1.name)
            (fun q => { q with runtime_dependents := q.runtime_dependents ++ en.2 })
            (fun a => rfl) acc.packages
        have hcomp1 : acc1.components = acc.components := by rw [hs]; rfl
        refine ⟨ihc.trans hcomp1, ihv.trans hview1, ?_, ?_⟩
        · intro nm p2 hp2
          obtain ⟨p1, hp3, hrt⟩ := ihrt nm p2 hp2
          by_cases hnm : en.1.name = nm
          · subst hnm
            have hself : getPackageByName acc1 en.1.name =
                (getPackageByName acc en.1.name).map fun q =>
                  { q with runtime_dependents := q.runtime_dependents ++ en.2 } := by
              rw [hs]
              exact find?_updateFirst_self (fun p => p.fmri.name = en.1.name)
                (fun q => { q with
                  runtime_dependents := q.runtime_dependents ++ en.2 })
                (fun a ha => ha) acc.packages
            rw [hp] at hself
            rw [hp3] at hself
            injection hself with hself
            refine ⟨p0, hp, ?_⟩
            rw [hrt, hself, List.filter_cons_of_pos (by simp), List.flatMap_cons]
            simp [List.append_assoc]
          · have hother : getPackageByName acc1 nm = getPackageByName acc nm := by
              rw [hs]
              refine find?_updateFirst_other (fun p => p.fmri.name = en.1.name)
                (fun p => p.fmri.name = nm)
                (fun q => { q with
                  runtime_dependents := q.runtime_dependents ++ en.2 })
                (fun a => rfl) ?_ acc.packages
              intro a ha
              simp only [decide_eq_true_eq] at ha
              simp [ha, hnm]
            rw [hother] at hp3
            refine ⟨p1, hp3, ?_⟩
            rw [hrt, List.filter_cons_of_neg (by simp [hnm])]
        · rw [ihpr]
          have hpr1 : acc1.problems = acc.problems := by rw [hs]; rfl
          rw [hpr1, diagsFor_congr acc1 acc hview1 rest, List.flatMap_cons,
            show (if (getPackageByName acc en.1.name).isSome then
                ([] : List Problem)
              else en.2.filterMap (missingDiagOf acc en.1)) = [] from by
              rw [hp]; rfl]
          simp

/-- FMRI named S (a dependency source). -/
def fS : FMRI := ⟨"S", none, none⟩

/-- Registry for C5: package S has one version with a single
`RequireAny [B, B]` runtime dependency (two candidates), package B
exists. -/
def csC5 : Components :=
  { components := [],
    packages :=
      [{ Package.new fS with
           versions :=
             [{ version := 1, runtime := [.RequireAny [fB, fB]],
                obsolete := false, renamed := false }] },
       Package.new fB],
    problems := [] }

/-- Claim C5 counterexample: a `RequireAny` with two candidates generates
two edges, but only one reverse edge reaches B's `runtime_dependents` —
the per-key accumulation is a set and deduplicates. -/
theorem c5_counterexample :
    (genEdges csC5).length = 2
    ∧ (distribute_reverse_runtime_dependencies csC5).map
        (fun cs => (getPackageByName cs "B").map fun p => p.runtime_dependents)
      = some (some [.Require fS]) :=
  ⟨rfl, rfl⟩

/-- Claim C5 (amended): reverse distribution is total modulo per-key
deduplication. The grouped map holds, per target key, a duplicate-free
batch containing exactly the edges generated for that key (so a
`RequireAny` with k distinct candidates yields k edges, and duplicate
entries collapse), and every generated edge lands in some batch. After
the loop, components are untouched, every resolvable package name gains
exactly the batches of its keys in key order, and the problems sink
gains exactly one missing-dependency diagnostic per edge of each
unresolvable key (renamed-source variant chosen by the source package's
flag inside `missingDiagOf`). -/
theorem c5_distribution_dedup_total (cs cs2 : Components)
    (h : distribute_reverse_runtime_dependencies cs = some cs2) :
    (∀ f es, (f, es) ∈ groupEdges (genEdges cs) →
        es.Nodup ∧ ∀ e, (e ∈ es ↔ (f, e) ∈ genEdges cs))
    ∧ (∀ f e, (f, e) ∈ genEdges cs →
        ∃ es, (f, es) ∈ groupEdges (genEdges cs) ∧ e ∈ es)
    ∧ cs2.components = cs.components
    ∧ (∀ nm p2, getPackageByName cs2 nm = some p2 →
        ∃ p, getPackageByName cs nm = some p ∧
          p2.runtime_dependents = p.runtime_dependents ++
            (((groupEdges (genEdges cs)).filter
              fun en => en.1.name = nm).flatMap Prod.snd))
    ∧ cs2.problems = cs.problems ++
        ((groupEdges (genEdges cs)).flatMap fun en =>
          if (getPackageByName cs en.1.name).isSome then []
          else en.2.filterMap (missingDiagOf cs en.1)) := by
  have hfold := foldlM_distributeStep_spec (groupEdges (genEdges cs)) cs cs2 h
  have hminv := mInv_groupEdges (genEdges cs)
  have hkeys := keysNodup_groupEdges (genEdges cs)
  refine ⟨?_, ?_, hfold.1, hfold.2.2.1, hfold.2.2.2⟩
  · intro f es hmem
    have hl := (mem_iff_lookupEdges _ hkeys f es).mp hmem
    exact (hminv f).2 es hl
  · intro f e hfe
    rcases hl : lookupEdges (groupEdges (genEdges cs)) f with _ | es
    · exact absurd hfe ((hminv f).1 hl e)
    · exact ⟨es, (mem_iff_lookupEdges _ hkeys f es).mpr hl,
        (((hminv f).2 es hl).2 e).mpr hfe⟩

/-- The result of distributing `csC5`. -/
def csC5target : Components :=
  { components := [],
    packages :=
      [{ Package.new fS with
           versions :=
             [{ version := 1, runtime := [.RequireAny [fB, fB]],
                obsolete := false, renamed := false }] },
       { Package.new fB with runtime_dependents := [.Require fS] }],
    problems := [] }

/-- Witness for the amended C5 at the concrete registry `csC5`. -/
theorem c5_distribution_dedup_total_witness :
    (∀ f es, (f, es) ∈ groupEdges (genEdges csC5) →
        es.Nodup ∧ ∀ e, (e ∈ es ↔ (f, e) ∈ genEdges csC5))
    ∧ (∀ f e, (f, e) ∈ genEdges csC5 →
        ∃ es, (f, es) ∈ groupEdges (genEdges csC5) ∧ e ∈ es)
    ∧ csC5target.components = csC5.components
    ∧ (∀ nm p2, getPackageByName csC5target nm = some p2 →
        ∃ p, getPackageByName csC5 nm = some p ∧
          p2.runtime_dependents = p.runtime_dependents ++
            (((groupEdges (genEdges csC5)).filter
              fun en => en.1.name = nm).flatMap Prod.snd))
    ∧ csC5target.problems = csC5.problems ++
        ((groupEdges (genEdges csC5)).flatMap fun en =>
          if (getPackageByName csC5 en.1.name).isSome then []
          else en.2.filterMap (missingDiagOf csC5 en.1)) :=
  c5_distribution_dedup_total csC5 csC5target rfl

end OIPkg
